import Mathlib

/-!
Verification of the bounded-concurrency upload pipeline
(`A11yUploader` / `useUploadQueue` / `mockUpload` / `utils`).

The TypeScript source is embedded shallowly:

* `Item` mirrors the item records of the uploader: `id`, `file`,
  `previewUrl`, `progress`, `status`, `error`, `serverUrl`, `abortCtrl`.
  Opaque runtime values are modelled by `Nat` tokens: `uid()` and
  `URL.createObjectURL` results come from a fresh-token counter
  (`uid` is assumed collision-free; it is an opaque unique identifier),
  and an `AbortController` is the token handed out at admission time.
* `QState` is the whole queue state.  The mutable ref `running.current`
  of `useUploadQueue` is represented by `inflight.length`, where
  `inflight` records the ids of transfers that have been started and have
  not yet settled: the code increments the counter exactly when a
  transfer starts (`running.current++` in `pump`) and decrements it
  exactly once per started transfer (in the `.finally` handler), which is
  exactly the length of that list under the `Step` relation below.
* Each event-loop turn that touches the state becomes one `Step`:
  `pushFiles`, `pump`, `cancelItem`, `cancelAll`, `retryItem`,
  `removeItem`, `startAll`, a progress callback, and the settlement of an
  in-flight transfer (the `.then`/`.catch` handlers followed by the
  `.finally` decrement).  Settlement consumes one entry of `inflight`.
* `mockUpload` is embedded as a deterministic machine `muStep` driven by
  a trace of events (timer ticks and the abort signal); the random draws
  (`totalMs`, the failure draw) are parameters.
-/

namespace Uploader

/-- `Item["status"]` from `types.ts`: the statuses the uploader code
distinguishes (`startAll` additionally tests for `"idle"`). -/
inductive Status where
  | idle
  | queued
  | uploading
  | success
  | error
  | canceled
deriving DecidableEq, Repr

/-- The identity-relevant part of a DOM `File`: `name`, `size`,
`lastModified` (used by `isDuplicate`) and `type` (used by
`validateFile`). -/
structure FileMeta where
  name : String
  size : Nat
  lastModified : Nat
  type : String
deriving DecidableEq, Repr

/-- One queue item, mirroring the `Item` record of the uploader.
`previewUrl`, `serverUrl` and `abortCtrl` are opaque tokens. -/
structure Item where
  id : Nat
  file : FileMeta
  previewUrl : Nat
  progress : Nat
  status : Status
  error : Option String := none
  serverUrl : Option Nat := none
  abortCtrl : Option Nat := none
deriving DecidableEq, Repr

/-- `const CONCURRENCY = 3` in `useUploadQueue.ts`. -/
def CONCURRENCY : Nat := 3

/-- `const MAX_FILES = 10` in `A11yUploader.tsx`. -/
def MAX_FILES : Nat := 10

/-- `const MAX_SIZE_BYTES = 5 * 1024 * 1024`. -/
def MAX_SIZE_BYTES : Nat := 5 * 1024 * 1024

/-- `const ACCEPT = ["image/png", "image/jpeg", "image/webp"]`. -/
def ACCEPT : List String := ["image/png", "image/jpeg", "image/webp"]

/-- `isDuplicate` from `utils.ts`: equality of name, size and
lastModified. -/
def isDuplicate (a b : FileMeta) : Bool :=
  a.name == b.name && a.size == b.size && a.lastModified == b.lastModified

/-- `validateFile` from `utils.ts`.  The returned message text for the
size overflow elides the `(x.xxMB)` float formatting, which is
presentational; no claim depends on the message contents. -/
def validateFile (f : FileMeta) : Option String :=
  if f.type ∈ ACCEPT then
    if MAX_SIZE_BYTES < f.size then some "파일 용량 초과" else none
  else
    some ("허용되지 않는 형식(" ++ (if f.type = "" then "unknown" else f.type) ++ ")")

/-- The whole queue state: the `items` React state, the set of started
and not-yet-settled transfers (whose length is `running.current`), and
the fresh-token counters for ids/object URLs (`nextId`) and abort
controllers (`nextCtrl`). -/
structure QState where
  items : List Item
  inflight : List Nat
  nextId : Nat
  nextCtrl : Nat
deriving DecidableEq, Repr

/-- The initial state: `useState<Item[]>([])` and `running.current = 0`. -/
def initState : QState := { items := [], inflight := [], nextId := 0, nextCtrl := 0 }

/-- A freshly enqueued item (`pushFiles`): `progress: 0`,
`status: "queued"`, preview URL token taken from the same fresh
counter as the id. -/
def mkItem (nid : Nat) (f : FileMeta) : Item :=
  { id := nid, file := f, previewUrl := nid, progress := 0, status := .queued }

/-- The `dupFiltered.forEach` loop of `pushFiles`: validate each file,
collecting the error messages of invalid files (in order) and building
the items to append (in order), threading the fresh-id counter.
Returns `(toAdd, errors, nextId')`. -/
def buildAdds : List FileMeta → Nat → (List Item × List String × Nat)
  | [], nid => ([], [], nid)
  | f :: rest, nid =>
    match validateFile f with
    | some err =>
      let r := buildAdds rest nid
      (r.1, (f.name ++ ": " ++ err) :: r.2.1, r.2.2)
    | none =>
      let r := buildAdds rest (nid + 1)
      (mkItem nid f :: r.1, r.2.1, r.2.2)

/-- `pushFiles` from `A11yUploader.tsx`: cap the incoming batch to the
remaining capacity (`Math.max(0, MAX_FILES - next.length)` is `Nat`
truncated subtraction), drop files that duplicate an *existing* item,
validate the rest and append the new items.  Returns the new state and
the list of validation error messages (joined into the assertive live
region by the caller). -/
def pushFiles (files : List FileMeta) (s : QState) : QState × List String :=
  let remain := MAX_FILES - s.items.length
  let pick := files.take remain
  let dupFiltered := pick.filter (fun f => !(s.items.any (fun x => isDuplicate f x.file)))
  let r := buildAdds dupFiltered s.nextId
  ({ s with items := s.items ++ r.1, nextId := r.2.2 }, r.2.1)

/-- `cancelItem` from `A11yUploader.tsx`: the matching item is set to
`canceled` whatever its previous status (the spread keeps every other
field, in particular `abortCtrl`); for an `uploading` item the abort
controller is additionally fired, which is modelled at the `mockUpload`
level (the in-flight transfer will settle with the abort rejection). -/
def cancelItemQ (id : Nat) (s : QState) : QState :=
  { s with items := s.items.map (fun it => if it.id = id then { it with status := .canceled } else it) }

/-- `retryItem` from `A11yUploader.tsx`: the matching item is reset to
`queued` with `progress 0` and `error` cleared — with no guard on its
previous status. -/
def retryItemQ (id : Nat) (s : QState) : QState :=
  { s with items := s.items.map (fun it =>
      if it.id = id then { it with status := .queued, progress := 0, error := none } else it) }

/-- `removeItem` from `A11yUploader.tsx` (the `URL.revokeObjectURL`
side effect is external to the queue state). -/
def removeItemQ (id : Nat) (s : QState) : QState :=
  { s with items := s.items.filter (fun it => decide (¬ it.id = id)) }

/-- `startAll` from `A11yUploader.tsx`: `idle`, `error` and `canceled`
items are re-queued with `progress 0` and `error` cleared. -/
def startAllQ (s : QState) : QState :=
  { s with items := s.items.map (fun it =>
      if it.status = .idle ∨ it.status = .error ∨ it.status = .canceled then
        { it with status := .queued, progress := 0, error := none }
      else it) }

/-- `cancelAll` from `A11yUploader.tsx`: every item except a `success`
one is set to `canceled` (aborting in-flight controllers, modelled at
the `mockUpload` level). -/
def cancelAllQ (s : QState) : QState :=
  { s with items := s.items.map (fun it =>
      { it with status := if it.status = .success then it.status else .canceled }) }

/-- How a settled transfer is recorded on an item by the promise
handlers in `pump`: the `.then` handler (success: `serverUrl` set,
`progress 100`), and the `.catch` handler (abort: `canceled` with
`error: undefined`; otherwise `error` with the message). -/
inductive Outcome where
  | success (url : Nat)
  | failure (msg : String)
  | cancelled
deriving DecidableEq, Repr

/-- The item update applied by the `.then`/`.catch` handlers of `pump`
for the settled transfer's item. -/
def applyOutcome (o : Outcome) (it : Item) : Item :=
  match o with
  | .success url => { it with status := .success, serverUrl := some url, progress := 100 }
  | .failure msg => { it with status := .error, error := some msg }
  | .cancelled => { it with status := .canceled, error := none }

/-- Settlement of the in-flight transfer for `id`: the `.then`/`.catch`
handler rewrites the matching item, and the `.finally` handler
decrements `running.current` — one entry of `inflight` is consumed.
This is a total function: no outcome is thrown to the caller. -/
def settleQ (id : Nat) (o : Outcome) (s : QState) : QState :=
  { s with
    items := s.items.map (fun it => if it.id = id then applyOutcome o it else it),
    inflight := s.inflight.erase id }

/-- The `onProgress` callback installed by `pump`: rewrite the matching
item's `progress`. -/
def progressQ (id p : Nat) (s : QState) : QState :=
  { s with items := s.items.map (fun it => if it.id = id then { it with progress := p } else it) }

/-- The number of `queued` items in a list. -/
def countQueued (l : List Item) : Nat :=
  l.countP (fun it => decide (it.status = .queued))

/-- The number of `uploading` items in a list. -/
def countUploading (l : List Item) : Nat :=
  l.countP (fun it => decide (it.status = .uploading))

/-- The admission loop of `pump`: scan the items in order; each `queued`
item found while capacity remains (`started < available`, carried here
as the remaining capacity `a`) is switched to `uploading` with a fresh
abort-controller token, its id is recorded (the `running.current++` /
`mockUpload(...)` invocation), and capacity shrinks by one.  Returns
`(items', startedIds, nextCtrl')`. -/
def pumpLoop : List Item → Nat → Nat → (List Item × List Nat × Nat)
  | [], _, c => ([], [], c)
  | it :: rest, a, c =>
    if it.status = .queued ∧ 0 < a then
      let r := pumpLoop rest (a - 1) (c + 1)
      ({ it with status := .uploading, abortCtrl := some c } :: r.1, it.id :: r.2.1, r.2.2)
    else
      let r := pumpLoop rest a c
      (it :: r.1, r.2.1, r.2.2)

/-- `pump` from `useUploadQueue.ts`: bail out when
`running.current >= CONCURRENCY`; otherwise admit queued items in list
order up to `available = CONCURRENCY - running.current`, starting one
transfer (a new `inflight` entry) per admitted item. -/
def pumpQ (s : QState) : QState :=
  if CONCURRENCY ≤ s.inflight.length then s
  else
    let r := pumpLoop s.items (CONCURRENCY - s.inflight.length) s.nextCtrl
    { s with items := r.1, inflight := s.inflight ++ r.2.1, nextCtrl := r.2.2 }

/-- One observable step of the uploader: a user command, a pump run, a
progress callback of an in-flight transfer, or the settlement of an
in-flight transfer. -/
inductive Step : QState → QState → Prop where
  | push (s : QState) (files : List FileMeta) : Step s (pushFiles files s).1
  | pump (s : QState) : Step s (pumpQ s)
  | cancel (s : QState) (id : Nat) : Step s (cancelItemQ id s)
  | cancelAll (s : QState) : Step s (cancelAllQ s)
  | retry (s : QState) (id : Nat) : Step s (retryItemQ id s)
  | remove (s : QState) (id : Nat) : Step s (removeItemQ id s)
  | startAll (s : QState) : Step s (startAllQ s)
  | settle (s : QState) (id : Nat) (o : Outcome) (h : id ∈ s.inflight) : Step s (settleQ id o s)
  | progress (s : QState) (id p : Nat) (h : id ∈ s.inflight) : Step s (progressQ id p s)

/-- The states the uploader can reach from its initial state. -/
inductive Reachable : QState → Prop where
  | init : Reachable initState
  | step (s s' : QState) : Reachable s → Step s s' → Reachable s'

/-! ### The Transfer Simulator (`mockUpload` from `api.ts`)

`mockUpload` runs on the event loop: an interval timer fires every 80ms
and the abort listener fires when cancellation is signalled.  A run is
an invocation (`muStart`, which depends on whether the signal is
already aborted when `mockUpload` is called) followed by a trace of
these two events processed in order.  The two cases differ materially
in the source: `const timer = setInterval(...)` is declared *after*
the `if (signal.aborted) return onAbort()` branch, so an
already-aborted signal runs `onAbort` while `timer` is still in its
temporal dead zone — `clearInterval(timer)` throws a `ReferenceError`
out of the Promise executor (the `reject(AbortError)` line is never
reached) and the promise rejects with that `ReferenceError`.  An abort
delivered later through the event listener fires only after the
executor has returned, with `timer` initialized, and rejects with
`AbortError` as intended.  The random draws are parameters: `totalMs`
(`800 + ⌊random*1200⌋`) and the failure draw `fail` made at completion
time. -/

/-- An event-loop occurrence inside one `mockUpload` run: an interval
tick, or the abort signal firing. -/
inductive MUEvent where
  | tick
  | abort
deriving DecidableEq, Repr

/-- How the `mockUpload` promise settled: resolution, the generic
network-failure rejection, the `AbortError` rejection from the abort
listener, or the `ReferenceError` rejection raised when the
already-aborted branch touches `timer` in its temporal dead zone. -/
inductive MUOutcome where
  | resolved
  | rejectedError
  | rejectedAbort
  | rejectedRefError
deriving DecidableEq, Repr

/-- Random draws of one `mockUpload` run. -/
structure MUParams where
  totalMs : Nat
  fail : Bool
deriving DecidableEq, Repr

/-- State of one `mockUpload` run: ticks elapsed so far, the `canceled`
flag, the promise settlement (a promise settles at most once), and the
list of `onProgress` arguments recorded so far. -/
structure MUState where
  ticks : Nat
  canceled : Bool
  settled : Option MUOutcome
  progressCalls : List Nat
deriving DecidableEq, Repr

/-- The state after the Promise executor body has run, before any
trace event. -/
def muInit : MUState := { ticks := 0, canceled := false, settled := none, progressCalls := [] }

/-- The invocation of `mockUpload`.  When the signal is already aborted,
`return onAbort()` runs before `const timer = setInterval(...)` has
been evaluated: `canceled` is set, then `clearInterval(timer)` throws a
`ReferenceError` (temporal dead zone), the executor's throw rejects the
promise with that `ReferenceError`, and neither the interval timer nor
the abort listener is ever installed.  Otherwise the listener is added
and the timer started: the run begins unsettled. -/
def muStart (alreadyAborted : Bool) : MUState :=
  if alreadyAborted then
    { ticks := 0, canceled := true, settled := some .rejectedRefError, progressCalls := [] }
  else muInit

/-- One event of a `mockUpload` run that started un-aborted.

`abort` is the `onAbort` handler fired by the event listener — by then
the executor has returned and `timer` is initialized: set `canceled`,
clear the interval and reject with `AbortError` — a rejection after
settlement is ignored (a promise settles once).  `tick` is the
`setInterval` callback: a no-op once the timer is cleared (which every
settlement path does) or when `canceled` is set; otherwise report
`min(99, ⌊elapsed/totalMs*100⌋)` via `onProgress` and, once
`elapsed >= totalMs`, settle — rejecting on the failure draw, else
reporting `onProgress(100)` and resolving.  On a run settled at start
by the temporal-dead-zone `ReferenceError`, neither timer nor listener
exists, and indeed both events leave such a state unchanged. -/
def muStep (p : MUParams) (st : MUState) : MUEvent → MUState
  | .abort =>
    if st.settled.isSome then { st with canceled := true }
    else { st with canceled := true, settled := some .rejectedAbort }
  | .tick =>
    if st.settled.isSome then st
    else if st.canceled then st
    else
      let elapsed := 80 * (st.ticks + 1)
      let pct := min 99 (elapsed * 100 / p.totalMs)
      let st1 := { st with ticks := st.ticks + 1, progressCalls := st.progressCalls ++ [pct] }
      if p.totalMs ≤ elapsed then
        if p.fail then { st1 with settled := some .rejectedError }
        else { st1 with settled := some .resolved, progressCalls := st1.progressCalls ++ [100] }
      else st1

/-- A whole `mockUpload` run: the invocation (with the signal's
aborted flag at call time) followed by a trace of events. -/
def muRun (p : MUParams) (alreadyAborted : Bool) (evs : List MUEvent) : MUState :=
  evs.foldl (muStep p) (muStart alreadyAborted)

/-- The message of the temporal-dead-zone `ReferenceError` (wording is
engine-specific; V8's is used here — no result depends on the text,
only on it not being an `AbortError`). -/
def tdzMessage : String := "Cannot access 'timer' before initialization"

/-- How the scheduler's promise handlers translate the settlement of
`mockUpload` into the recorded outcome: `.then` receives the fresh
object-URL (an opaque token); the `.catch` handler treats exactly the
`DOMException` named `AbortError` as cancellation — the generic
network error and the temporal-dead-zone `ReferenceError` are neither,
so both are recorded as failures with their message. -/
def outcomeOfMU (o : MUOutcome) (url : Nat) : Outcome :=
  match o with
  | .resolved => .success url
  | .rejectedError => .failure "네트워크 오류가 발생했습니다."
  | .rejectedAbort => .cancelled
  | .rejectedRefError => .failure tdzMessage

/-! ### Lemmas about the admission loop -/

theorem countQueued_nil : countQueued [] = 0 := rfl

theorem countQueued_cons (it : Item) (l : List Item) :
    countQueued (it :: l) = (if it.status = .queued then 1 else 0) + countQueued l := by
  simp only [countQueued, List.countP_cons]
  by_cases h : it.status = .queued <;> simp [h, Nat.add_comm]

theorem countQueued_take_le (l : List Item) {i j : Nat} (hij : i ≤ j) :
    countQueued (l.take i) ≤ countQueued (l.take j) := by
  have h1 : l.take i = (l.take j).take i := by
    rw [List.take_take, Nat.min_eq_left hij]
  rw [h1]
  exact List.Sublist.countP_le _ (List.take_sublist i (l.take j))

theorem pumpLoop_map_id (l : List Item) (a c : Nat) :
    (pumpLoop l a c).1.map (·.id) = l.map (·.id) := by
  induction l generalizing a c with
  | nil => rfl
  | cons it rest ih =>
    by_cases h : it.status = .queued ∧ 0 < a <;>
      simp [pumpLoop, h, ih]

theorem pumpLoop_length (l : List Item) (a c : Nat) :
    (pumpLoop l a c).1.length = l.length := by
  have h := congrArg List.length (pumpLoop_map_id l a c)
  simpa using h

theorem pumpLoop_ids_length (l : List Item) (a c : Nat) :
    (pumpLoop l a c).2.1.length = min a (countQueued l) := by
  induction l generalizing a c with
  | nil => simp [pumpLoop, countQueued_nil]
  | cons it rest ih =>
    by_cases h : it.status = .queued ∧ 0 < a
    · simp only [pumpLoop, if_pos h, List.length_cons, ih, countQueued_cons, if_pos h.1]
      omega
    · simp only [pumpLoop, if_neg h, ih, countQueued_cons]
      by_cases hq : it.status = .queued
      · have ha : a = 0 := by
          rcases Nat.eq_zero_or_pos a with h0 | h0
          · exact h0
          · exact absurd ⟨hq, h0⟩ h
        simp [hq, ha]
      · simp [hq]

theorem pumpLoop_no_queued (l : List Item) (a c : Nat)
    (h : ∀ it ∈ l, ¬ it.status = .queued) : pumpLoop l a c = (l, [], c) := by
  induction l generalizing a c with
  | nil => rfl
  | cons it rest ih =>
    have hit : ¬ it.status = .queued := h it (List.mem_cons_self it rest)
    have hcond : ¬ (it.status = .queued ∧ 0 < a) := fun hc => hit hc.1
    simp [pumpLoop, hcond, ih a c (fun x hx => h x (List.mem_cons_of_mem it hx))]

theorem pumpLoop_result_no_queued (l : List Item) (a c : Nat)
    (h : countQueued l ≤ a) :
    ∀ it ∈ (pumpLoop l a c).1, ¬ it.status = .queued := by
  induction l generalizing a c with
  | nil => simp [pumpLoop]
  | cons it rest ih =>
    by_cases hc : it.status = .queued ∧ 0 < a
    · simp only [pumpLoop, if_pos hc]
      intro x hx
      rcases List.mem_cons.mp hx with h1 | h1
      · subst h1; simp
      · have hrest : countQueued rest ≤ a - 1 := by
          have := countQueued_cons it rest
          rw [if_pos hc.1] at this
          omega
        exact ih (a - 1) (c + 1) hrest x h1
    · simp only [pumpLoop, if_neg hc]
      intro x hx
      rcases List.mem_cons.mp hx with h1 | h1
      · subst h1
        intro hq
        have ha : 0 < a := by
          have := countQueued_cons x rest
          rw [if_pos hq] at this
          omega
        exact hc ⟨hq, ha⟩
      · have hrest : countQueued rest ≤ a := by
          have := countQueued_cons it rest
          by_cases hq : it.status = .queued <;> simp [hq] at this <;> omega
        exact ih a c hrest x h1

theorem pumpLoop_getElem? (l : List Item) (a c i : Nat) :
    (pumpLoop l a c).1[i]? =
      (l[i]?).map (fun it =>
        if it.status = .queued ∧ countQueued (l.take i) < a then
          { it with status := .uploading, abortCtrl := some (c + countQueued (l.take i)) }
        else it) := by
  induction l generalizing a c i with
  | nil => simp [pumpLoop]
  | cons it rest ih =>
    by_cases h : it.status = .queued ∧ 0 < a
    · have hcons : (pumpLoop (it :: rest) a c).1 =
          { it with status := .uploading, abortCtrl := some c } ::
            (pumpLoop rest (a - 1) (c + 1)).1 := by
        simp [pumpLoop, if_pos h]
      cases i with
      | zero =>
        rw [hcons]
        simp only [List.getElem?_cons_zero, Option.map_some', List.take_zero, countQueued_nil]
        rw [if_pos ⟨h.1, h.2⟩]
        simp
      | succ j =>
        rw [hcons]
        rw [List.getElem?_cons_succ, ih (a - 1) (c + 1) j, List.getElem?_cons_succ,
          List.take_succ_cons, countQueued_cons, if_pos h.1]
        cases hx : rest[j]? with
        | none => rfl
        | some x =>
          simp only [Option.map_some']
          by_cases hc : x.status = .queued ∧ countQueued (rest.take j) < a - 1
          · rw [if_pos hc, if_pos ⟨hc.1, by omega⟩]
            have harith : c + 1 + countQueued (rest.take j) =
                c + (1 + countQueued (rest.take j)) := by omega
            rw [harith]
          · have hc2 : ¬ (x.status = .queued ∧ 1 + countQueued (rest.take j) < a) := by
              rintro ⟨h1, h2⟩; exact hc ⟨h1, by omega⟩
            rw [if_neg hc, if_neg hc2]
    · have hcons : (pumpLoop (it :: rest) a c).1 = it :: (pumpLoop rest a c).1 := by
        simp [pumpLoop, if_neg h]
      have hids : (pumpLoop (it :: rest) a c).2 = (pumpLoop rest a c).2 := by
        simp [pumpLoop, if_neg h]
      cases i with
      | zero =>
        rw [hcons]
        simp only [List.getElem?_cons_zero, Option.map_some', List.take_zero, countQueued_nil]
        rw [if_neg h]
      | succ j =>
        rw [hcons]
        rw [List.getElem?_cons_succ, ih a c j, List.getElem?_cons_succ,
          List.take_succ_cons, countQueued_cons]
        by_cases hq : it.status = .queued
        · have ha : a = 0 := by
            rcases Nat.eq_zero_or_pos a with h0 | h0
            · exact h0
            · exact absurd ⟨hq, h0⟩ h
          subst ha
          cases hx : rest[j]? with
          | none => rfl
          | some x =>
            simp only [Option.map_some']
            rw [if_neg (by omega : ¬ (x.status = .queued ∧ countQueued (rest.take j) < 0)),
              if_neg (by omega :
                ¬ (x.status = .queued ∧
                    (if it.status = .queued then 1 else 0) + countQueued (rest.take j) < 0))]
        · rw [if_neg hq]
          simp

theorem pumpLoop_uploading_mem (l : List Item) (a c : Nat) (fl : List Nat)
    (hinv : ∀ it ∈ l, it.status = .uploading → it.id ∈ fl) :
    ∀ it ∈ (pumpLoop l a c).1, it.status = .uploading →
      it.id ∈ fl ++ (pumpLoop l a c).2.1 := by
  induction l generalizing a c with
  | nil => simp [pumpLoop]
  | cons it rest ih =>
    have hrest : ∀ x ∈ rest, x.status = .uploading → x.id ∈ fl :=
      fun x hx => hinv x (List.mem_cons_of_mem it hx)
    by_cases h : it.status = .queued ∧ 0 < a
    · simp only [pumpLoop, if_pos h]
      intro x hx hup
      rcases List.mem_cons.mp hx with h1 | h1
      · subst h1; simp
      · have := ih (a - 1) (c + 1) hrest x h1 hup
        rcases List.mem_append.mp this with h2 | h2
        · exact List.mem_append.mpr (Or.inl h2)
        · exact List.mem_append.mpr (Or.inr (List.mem_cons_of_mem _ h2))
    · simp only [pumpLoop, if_neg h]
      intro x hx hup
      rcases List.mem_cons.mp hx with h1 | h1
      · subst h1
        exact List.mem_append.mpr (Or.inl (hinv x (List.mem_cons_self x rest) hup))
      · exact ih a c hrest x h1 hup

theorem pumpLoop_ids_queued (l : List Item) (a c : Nat) :
    ∀ x ∈ (pumpLoop l a c).2.1, ∃ it ∈ l, it.id = x ∧ it.status = .queued := by
  induction l generalizing a c with
  | nil => simp [pumpLoop]
  | cons it rest ih =>
    by_cases h : it.status = .queued ∧ 0 < a
    · simp only [pumpLoop, if_pos h]
      intro x hx
      rcases List.mem_cons.mp hx with h1 | h1
      · exact ⟨it, List.mem_cons_self it rest, h1.symm, h.1⟩
      · obtain ⟨y, hy, hyx, hyq⟩ := ih (a - 1) (c + 1) x h1
        exact ⟨y, List.mem_cons_of_mem it hy, hyx, hyq⟩
    · simp only [pumpLoop, if_neg h]
      intro x hx
      obtain ⟨y, hy, hyx, hyq⟩ := ih a c x hx
      exact ⟨y, List.mem_cons_of_mem it hy, hyx, hyq⟩

theorem pumpLoop_mem (l : List Item) (a c : Nat) :
    ∀ it ∈ (pumpLoop l a c).1,
      it ∈ l ∨ ∃ x ∈ l, x.status = .queued ∧ ∃ k,
        it = { x with status := .uploading, abortCtrl := some k } := by
  induction l generalizing a c with
  | nil => simp [pumpLoop]
  | cons it rest ih =>
    by_cases h : it.status = .queued ∧ 0 < a
    · simp only [pumpLoop, if_pos h]
      intro x hx
      rcases List.mem_cons.mp hx with h1 | h1
      · exact Or.inr ⟨it, List.mem_cons_self it rest, h.1, c, h1⟩
      · rcases ih (a - 1) (c + 1) x h1 with h2 | ⟨y, hy, hyq, k, hk⟩
        · exact Or.inl (List.mem_cons_of_mem it h2)
        · exact Or.inr ⟨y, List.mem_cons_of_mem it hy, hyq, k, hk⟩
    · simp only [pumpLoop, if_neg h]
      intro x hx
      rcases List.mem_cons.mp hx with h1 | h1
      · exact Or.inl (h1 ▸ List.mem_cons_self it rest)
      · rcases ih a c x h1 with h2 | ⟨y, hy, hyq, k, hk⟩
        · exact Or.inl (List.mem_cons_of_mem it h2)
        · exact Or.inr ⟨y, List.mem_cons_of_mem it hy, hyq, k, hk⟩

/-! ### The state invariant -/

/-- The inductive invariant of the queue: item ids are distinct and
below the fresh counter, every `uploading` item has an in-flight
transfer, at most `CONCURRENCY` transfers are in flight, and at most
`MAX_FILES` items exist. -/
def Inv (s : QState) : Prop :=
  (s.items.map (·.id)).Nodup ∧
  (∀ it ∈ s.items, it.id < s.nextId) ∧
  (∀ it ∈ s.items, it.status = .uploading → it.id ∈ s.inflight) ∧
  s.inflight.length ≤ CONCURRENCY ∧
  s.items.length ≤ MAX_FILES

theorem map_id_comp (f : Item → Item) (hid : ∀ it, (f it).id = it.id) (l : List Item) :
    (l.map f).map (·.id) = l.map (·.id) := by
  induction l with
  | nil => rfl
  | cons x xs ih => simp [hid, ih]

theorem inv_map (s : QState) (f : Item → Item)
    (hid : ∀ it, (f it).id = it.id)
    (hup : ∀ it, (f it).status = .uploading → it.status = .uploading)
    (h : Inv s) : Inv { s with items := s.items.map f } := by
  obtain ⟨h1, h2, h3, h4, h5⟩ := h
  refine ⟨?_, ?_, ?_, h4, ?_⟩
  · rw [map_id_comp f hid]; exact h1
  · intro it' hit'
    obtain ⟨it, hit, rfl⟩ := List.mem_map.mp hit'
    rw [hid]; exact h2 it hit
  · intro it' hit' hupl
    obtain ⟨it, hit, rfl⟩ := List.mem_map.mp hit'
    rw [hid]; exact h3 it hit (hup it hupl)
  · simpa using h5

theorem inv_cancelItemQ (id : Nat) (s : QState) (h : Inv s) : Inv (cancelItemQ id s) := by
  refine inv_map s _ (fun it => ?_) (fun it => ?_) h
  · by_cases hc : it.id = id <;> simp [hc]
  · by_cases hc : it.id = id <;> simp [hc]

theorem inv_retryItemQ (id : Nat) (s : QState) (h : Inv s) : Inv (retryItemQ id s) := by
  refine inv_map s _ (fun it => ?_) (fun it => ?_) h
  · by_cases hc : it.id = id <;> simp [hc]
  · by_cases hc : it.id = id <;> simp [hc]

theorem inv_startAllQ (s : QState) (h : Inv s) : Inv (startAllQ s) := by
  refine inv_map s _ (fun it => ?_) (fun it => ?_) h
  · by_cases hc : it.status = .idle ∨ it.status = .error ∨ it.status = .canceled <;> simp [hc]
  · by_cases hc : it.status = .idle ∨ it.status = .error ∨ it.status = .canceled <;> simp [hc]

theorem inv_cancelAllQ (s : QState) (h : Inv s) : Inv (cancelAllQ s) := by
  refine inv_map s _ (fun it => ?_) (fun it => ?_) h
  · simp
  · by_cases hc : it.status = .success <;> simp [hc]

theorem inv_progressQ (id p : Nat) (s : QState) (h : Inv s) : Inv (progressQ id p s) := by
  refine inv_map s _ (fun it => ?_) (fun it => ?_) h
  · by_cases hc : it.id = id <;> simp [hc]
  · by_cases hc : it.id = id <;> simp [hc]

theorem applyOutcome_id (o : Outcome) (it : Item) : (applyOutcome o it).id = it.id := by
  cases o <;> rfl

theorem applyOutcome_not_uploading (o : Outcome) (it : Item) :
    ¬ (applyOutcome o it).status = .uploading := by
  cases o <;> simp [applyOutcome]

theorem inv_settleQ (id : Nat) (o : Outcome) (s : QState) (h : Inv s) :
    Inv (settleQ id o s) := by
  obtain ⟨h1, h2, h3, h4, h5⟩ := h
  have hid : ∀ it : Item, ((fun it => if it.id = id then applyOutcome o it else it) it).id = it.id := by
    intro it
    by_cases hc : it.id = id <;> simp [hc, applyOutcome_id]
  refine ⟨?_, ?_, ?_, ?_, ?_⟩
  · rw [show (settleQ id o s).items = s.items.map _ from rfl, map_id_comp _ hid]
    exact h1
  · intro it' hit'
    obtain ⟨it, hit, rfl⟩ := List.mem_map.mp hit'
    rw [hid]; exact h2 it hit
  · intro it' hit' hupl
    obtain ⟨it, hit, rfl⟩ := List.mem_map.mp hit'
    by_cases hc : it.id = id
    · rw [if_pos hc] at hupl
      exact absurd hupl (applyOutcome_not_uploading o it)
    · rw [if_neg hc] at hupl ⊢
      exact (List.mem_erase_of_ne hc).mpr (h3 it hit hupl)
  · exact le_trans ((List.erase_sublist id s.inflight).length_le) h4
  · simpa [settleQ] using h5

theorem inv_removeItemQ (id : Nat) (s : QState) (h : Inv s) : Inv (removeItemQ id s) := by
  obtain ⟨h1, h2, h3, h4, h5⟩ := h
  have hsub : (s.items.filter (fun it => decide (¬ it.id = id))).Sublist s.items :=
    List.filter_sublist s.items
  refine ⟨?_, ?_, ?_, h4, ?_⟩
  · exact ((hsub.map (·.id)).nodup h1)
  · intro it hit; exact h2 it (hsub.mem hit)
  · intro it hit hupl; exact h3 it (hsub.mem hit) hupl
  · exact le_trans hsub.length_le h5

theorem inv_pumpQ (s : QState) (h : Inv s) : Inv (pumpQ s) := by
  obtain ⟨h1, h2, h3, h4, h5⟩ := h
  by_cases hg : CONCURRENCY ≤ s.inflight.length
  · rw [pumpQ, if_pos hg]; exact ⟨h1, h2, h3, h4, h5⟩
  · rw [pumpQ, if_neg hg]
    refine ⟨?_, ?_, ?_, ?_, ?_⟩
    · rw [pumpLoop_map_id]; exact h1
    · intro it' hit'
      rcases pumpLoop_mem s.items (CONCURRENCY - s.inflight.length) s.nextCtrl it' hit' with
        hmem | ⟨x, hx, _, k, rfl⟩
      · exact h2 it' hmem
      · exact h2 x hx
    · exact pumpLoop_uploading_mem s.items _ s.nextCtrl s.inflight h3
    · rw [List.length_append, pumpLoop_ids_length]
      have : min (CONCURRENCY - s.inflight.length) (countQueued s.items) ≤
          CONCURRENCY - s.inflight.length := Nat.min_le_left _ _
      omega
    · rw [pumpLoop_length]; exact h5

/-! ### Lemmas about `buildAdds` and `pushFiles` -/

theorem mkItem_id (nid : Nat) (f : FileMeta) : (mkItem nid f).id = nid := rfl

theorem buildAdds_nid_mono (fs : List FileMeta) (n : Nat) : n ≤ (buildAdds fs n).2.2 := by
  induction fs generalizing n with
  | nil => simp [buildAdds]
  | cons f rest ih =>
    cases hv : validateFile f with
    | some err =>
      simp only [buildAdds, hv]
      exact ih n
    | none =>
      simp only [buildAdds, hv]
      exact le_trans (Nat.le_succ n) (ih (n + 1))

theorem buildAdds_id_bounds (fs : List FileMeta) (n : Nat) :
    ∀ it ∈ (buildAdds fs n).1, n ≤ it.id ∧ it.id < (buildAdds fs n).2.2 := by
  induction fs generalizing n with
  | nil => simp [buildAdds]
  | cons f rest ih =>
    cases hv : validateFile f with
    | some err =>
      simp only [buildAdds, hv]
      exact ih n
    | none =>
      simp only [buildAdds, hv]
      intro it hit
      rcases List.mem_cons.mp hit with h1 | h1
      · subst h1
        refine ⟨le_refl n, ?_⟩
        have := buildAdds_nid_mono rest (n + 1)
        rw [mkItem_id]
        omega
      · have := ih (n + 1) it h1
        omega

theorem buildAdds_ids_nodup (fs : List FileMeta) (n : Nat) :
    ((buildAdds fs n).1.map (·.id)).Nodup := by
  induction fs generalizing n with
  | nil => simp [buildAdds]
  | cons f rest ih =>
    cases hv : validateFile f with
    | some err =>
      simp only [buildAdds, hv]
      exact ih n
    | none =>
      simp only [buildAdds, hv, List.map_cons, List.nodup_cons]
      refine ⟨?_, ih (n + 1)⟩
      intro hmem
      obtain ⟨it, hit, hid⟩ := List.mem_map.mp hmem
      have := (buildAdds_id_bounds rest (n + 1) it hit).1
      rw [mkItem_id] at hid
      omega

theorem buildAdds_status (fs : List FileMeta) (n : Nat) :
    ∀ it ∈ (buildAdds fs n).1, it.status = .queued := by
  induction fs generalizing n with
  | nil => simp [buildAdds]
  | cons f rest ih =>
    cases hv : validateFile f with
    | some err =>
      simp only [buildAdds, hv]
      exact ih n
    | none =>
      simp only [buildAdds, hv]
      intro it hit
      rcases List.mem_cons.mp hit with h1 | h1
      · subst h1; rfl
      · exact ih (n + 1) it h1

theorem buildAdds_length (fs : List FileMeta) (n : Nat) :
    (buildAdds fs n).1.length ≤ fs.length := by
  induction fs generalizing n with
  | nil => simp [buildAdds]
  | cons f rest ih =>
    cases hv : validateFile f with
    | some err =>
      simp only [buildAdds, hv]
      exact le_trans (ih n) (Nat.le_succ _)
    | none =>
      simp only [buildAdds, hv, List.length_cons]
      exact Nat.succ_le_succ (ih (n + 1))

theorem inv_pushFiles (files : List FileMeta) (s : QState) (h : Inv s) :
    Inv (pushFiles files s).1 := by
  obtain ⟨h1, h2, h3, h4, h5⟩ := h
  set dupFiltered := (files.take (MAX_FILES - s.items.length)).filter
    (fun f => !(s.items.any (fun x => isDuplicate f x.file))) with hdf
  refine ⟨?_, ?_, ?_, h4, ?_⟩
  · rw [show (pushFiles files s).1.items = s.items ++ (buildAdds dupFiltered s.nextId).1 from rfl]
    rw [List.map_append]
    refine List.Nodup.append h1 (buildAdds_ids_nodup _ _) ?_
    intro x hx hx'
    obtain ⟨it, hit, rfl⟩ := List.mem_map.mp hx
    obtain ⟨it', hit', hid⟩ := List.mem_map.mp hx'
    have hlt := h2 it hit
    have hge := (buildAdds_id_bounds dupFiltered s.nextId it' hit').1
    omega
  · intro it hit
    rw [show (pushFiles files s).1.items = s.items ++ (buildAdds dupFiltered s.nextId).1 from rfl]
      at hit
    rw [show (pushFiles files s).1.nextId = (buildAdds dupFiltered s.nextId).2.2 from rfl]
    rcases List.mem_append.mp hit with h1' | h1'
    · have := h2 it h1'
      have := buildAdds_nid_mono dupFiltered s.nextId
      omega
    · exact (buildAdds_id_bounds dupFiltered s.nextId it h1').2
  · intro it hit hupl
    rw [show (pushFiles files s).1.items = s.items ++ (buildAdds dupFiltered s.nextId).1 from rfl]
      at hit
    rcases List.mem_append.mp hit with h1' | h1'
    · exact h3 it h1' hupl
    · have := buildAdds_status dupFiltered s.nextId it h1'
      rw [this] at hupl
      exact absurd hupl (by simp)
  · rw [show (pushFiles files s).1.items = s.items ++ (buildAdds dupFiltered s.nextId).1 from rfl]
    rw [List.length_append]
    have hb := buildAdds_length dupFiltered s.nextId
    have hf : dupFiltered.length ≤ (files.take (MAX_FILES - s.items.length)).length :=
      (List.filter_sublist _).length_le
    have ht : (files.take (MAX_FILES - s.items.length)).length ≤ MAX_FILES - s.items.length := by
      rw [List.length_take]; exact Nat.min_le_left _ _
    omega

/-! ### Invariant preservation and the reachable-state bound -/

theorem initState_inv : Inv initState := by
  refine ⟨?_, ?_, ?_, ?_, ?_⟩ <;> simp [initState, CONCURRENCY, MAX_FILES]

theorem step_preserves_inv (s s' : QState) (hstep : Step s s') (h : Inv s) : Inv s' := by
  cases hstep with
  | push files => exact inv_pushFiles files s h
  | pump => exact inv_pumpQ s h
  | cancel id => exact inv_cancelItemQ id s h
  | cancelAll => exact inv_cancelAllQ s h
  | retry id => exact inv_retryItemQ id s h
  | remove id => exact inv_removeItemQ id s h
  | startAll => exact inv_startAllQ s h
  | settle id o hmem => exact inv_settleQ id o s h
  | progress id p hmem => exact inv_progressQ id p s h

theorem reachable_inv (s : QState) (h : Reachable s) : Inv s := by
  induction h with
  | init => exact initState_inv
  | step s s' _ hstep ih => exact step_preserves_inv s s' hstep ih

theorem countUploading_le_inflight (s : QState) (h : Inv s) :
    countUploading s.items ≤ s.inflight.length := by
  obtain ⟨h1, _, h3, _, _⟩ := h
  have hsub : (s.items.filter (fun it => decide (it.status = .uploading))).Sublist s.items :=
    List.filter_sublist s.items
  have hnd : ((s.items.filter (fun it => decide (it.status = .uploading))).map (·.id)).Nodup :=
    (hsub.map (·.id)).nodup h1
  have hss : ((s.items.filter (fun it => decide (it.status = .uploading))).map (·.id)) ⊆
      s.inflight := by
    intro x hx
    obtain ⟨it, hit, rfl⟩ := List.mem_map.mp hx
    have hmem := hsub.mem hit
    have hupl : it.status = .uploading := by
      have := List.of_mem_filter hit
      simpa using this
    exact h3 it hmem hupl
  have := (hnd.subperm hss).length_le
  rw [List.length_map] at this
  rw [countUploading, List.countP_eq_length_filter]
  exact this

theorem pumpQ_guard (s : QState) (hg : CONCURRENCY ≤ s.inflight.length) : pumpQ s = s := by
  rw [pumpQ, if_pos hg]

theorem pumpQ_eq (s : QState) (hg : ¬ CONCURRENCY ≤ s.inflight.length) :
    pumpQ s = { s with
      items := (pumpLoop s.items (CONCURRENCY - s.inflight.length) s.nextCtrl).1,
      inflight := s.inflight ++
        (pumpLoop s.items (CONCURRENCY - s.inflight.length) s.nextCtrl).2.1,
      nextCtrl := (pumpLoop s.items (CONCURRENCY - s.inflight.length) s.nextCtrl).2.2 } := by
  rw [pumpQ, if_neg hg]

/-! ### Claim theorems -/

/-- C1: in every reachable state of the queue, the number of items with
status `uploading` never exceeds the configured concurrency limit,
which is 3 in the reference implementation (`const CONCURRENCY = 3`):
`pump` admits at most `CONCURRENCY - running.current` queued items per
call, the counter is incremented at admission, and it is decremented
exactly once when the corresponding transfer settles. -/
theorem C1_concurrency_bound (s : QState) (h : Reachable s) :
    countUploading s.items ≤ CONCURRENCY ∧ CONCURRENCY = 3 := by
  have hinv := reachable_inv s h
  exact ⟨le_trans (countUploading_le_inflight s hinv) hinv.2.2.2.1, rfl⟩

/-- A concrete file used by the witnesses. -/
def sampleFile : FileMeta :=
  { name := "a.png", size := 1000, lastModified := 1, type := "image/png" }

/-- Witness for C1: the bound holds in the concrete reachable state
obtained by enqueuing one file and running the pump. -/
theorem C1_concurrency_bound_witness :
    countUploading (pumpQ (pushFiles [sampleFile] initState).1).items ≤ CONCURRENCY ∧
      CONCURRENCY = 3 :=
  C1_concurrency_bound _
    (Reachable.step _ _
      (Reachable.step _ _ Reachable.init (Step.push initState [sampleFile]))
      (Step.pump _))

/-- C5: admission is FIFO in list position: if items at positions
`i ≤ j` are both `queued` and `pump` admits the one at `j`, it also
admits the one at `i` — the admission loop scans the collection in
order and starts queued items until capacity is exhausted. -/
theorem C5_fifo_admission (s : QState) (i j : Nat) (hij : i ≤ j)
    (iti itj : Item) (hi : s.items[i]? = some iti) (hj : s.items[j]? = some itj)
    (hqi : iti.status = .queued) (hqj : itj.status = .queued)
    (hadm : ((pumpQ s).items[j]?).map (·.status) = some .uploading) :
    ((pumpQ s).items[i]?).map (·.status) = some .uploading := by
  by_cases hg : CONCURRENCY ≤ s.inflight.length
  · rw [pumpQ_guard s hg, hj] at hadm
    simp only [Option.map_some', Option.some.injEq] at hadm
    rw [hqj] at hadm
    exact absurd hadm (by simp)
  · rw [pumpQ_eq s hg] at hadm ⊢
    simp only at hadm ⊢
    rw [pumpLoop_getElem?, hj] at hadm
    rw [pumpLoop_getElem?, hi]
    simp only [Option.map_some', Option.some.injEq] at hadm ⊢
    by_cases hcj : itj.status = .queued ∧
        countQueued (s.items.take j) < CONCURRENCY - s.inflight.length
    · have hci : iti.status = .queued ∧
          countQueued (s.items.take i) < CONCURRENCY - s.inflight.length :=
        ⟨hqi, lt_of_le_of_lt (countQueued_take_le s.items hij) hcj.2⟩
      rw [if_pos hci]
    · rw [if_neg hcj] at hadm
      rw [hqj] at hadm
      exact absurd hadm (by simp)

/-- The concrete two-queued-items state used by the C5 witness. -/
def twoQueuedState : QState :=
  { items := [mkItem 0 sampleFile, mkItem 1 sampleFile],
    inflight := [], nextId := 2, nextCtrl := 0 }

/-- Witness for C5: with two queued items and a free queue, `pump`
admits position 1, hence also position 0. -/
theorem C5_fifo_admission_witness :
    (((pumpQ twoQueuedState).items[0]?).map (·.status)) = some .uploading :=
  C5_fifo_admission twoQueuedState 0 1 (by decide) (mkItem 0 sampleFile) (mkItem 1 sampleFile)
    (by decide) (by decide) (by decide) (by decide) (by decide)

/-- C6: `pump` is idempotent — a second `pump` with no intervening
state change produces no additional status transitions, no new
cancellation handles (`nextCtrl` unchanged) and no additional transfer
invocations (`inflight` unchanged): the whole state is fixed. -/
theorem C6_pump_idempotent (s : QState) : pumpQ (pumpQ s) = pumpQ s := by
  by_cases hg : CONCURRENCY ≤ s.inflight.length
  · rw [pumpQ_guard s hg, pumpQ_guard s hg]
  · have he := pumpQ_eq s hg
    have hlen : (pumpLoop s.items (CONCURRENCY - s.inflight.length) s.nextCtrl).2.1.length =
        min (CONCURRENCY - s.inflight.length) (countQueued s.items) :=
      pumpLoop_ids_length s.items _ s.nextCtrl
    by_cases hq : CONCURRENCY - s.inflight.length ≤ countQueued s.items
    · have hfull : CONCURRENCY ≤ (pumpQ s).inflight.length := by
        rw [he]
        simp only [List.length_append]
        omega
      rw [pumpQ_guard _ hfull]
    · have hnoq : ∀ it ∈ (pumpQ s).items, ¬ it.status = .queued := by
        rw [he]
        exact pumpLoop_result_no_queued s.items _ s.nextCtrl (by omega)
      by_cases hg2 : CONCURRENCY ≤ (pumpQ s).inflight.length
      · rw [pumpQ_guard _ hg2]
      · rw [pumpQ_eq _ hg2, pumpLoop_no_queued _ _ _ hnoq]
        simp

/-! ### Cancellation precedence in the Transfer Simulator -/

theorem muStep_settled_preserved (p : MUParams) (st : MUState) (e : MUEvent)
    (h : st.settled.isSome) :
    (muStep p st e).settled = st.settled ∧
    (muStep p st e).progressCalls = st.progressCalls := by
  cases e <;> simp [muStep, h]

theorem muFold_settled_preserved (p : MUParams) (evs : List MUEvent) (st : MUState)
    (h : st.settled.isSome) :
    (evs.foldl (muStep p) st).settled = st.settled ∧
    (evs.foldl (muStep p) st).progressCalls = st.progressCalls := by
  induction evs generalizing st with
  | nil => exact ⟨rfl, rfl⟩
  | cons e rest ih =>
    have h1 := muStep_settled_preserved p st e h
    have h2 := ih (muStep p st e) (by rw [h1.1]; exact h)
    exact ⟨h1.1 ▸ h2.1, h1.2 ▸ h2.2⟩

theorem muStep_abort_unsettled (p : MUParams) (st : MUState) (h : st.settled = none) :
    muStep p st .abort = { st with canceled := true, settled := some .rejectedAbort } := by
  simp [muStep, h]

/-- Cancellation precedence for aborts delivered through the event
listener, i.e. signalled after the transfer has started: if the abort
arrives before the run settles (after any prefix `pre` that has not
settled it), then whatever happens afterwards (`post`) the run settles
with the `AbortError` rejection — never `resolved` nor the generic
error — no `onProgress` call is recorded after the abort, and the
scheduler's `.catch` handler records this outcome on the item as
`status == canceled` with no `error` message. -/
theorem abort_after_start_cancelled (p : MUParams) (pre post : List MUEvent)
    (s : QState) (id url i : Nat) (it : Item)
    (hpre : (muRun p false pre).settled = none)
    (hit : s.items[i]? = some it) (hid : it.id = id) :
    (muRun p false (pre ++ .abort :: post)).settled = some .rejectedAbort ∧
    (muRun p false (pre ++ .abort :: post)).progressCalls =
      (muRun p false pre).progressCalls ∧
    outcomeOfMU .rejectedAbort url = .cancelled ∧
    ((settleQ id (outcomeOfMU .rejectedAbort url) s).items[i]?).map
      (fun x => (x.status, x.error)) = some (.canceled, none) := by
  have hsplit : muRun p false (pre ++ .abort :: post) =
      post.foldl (muStep p) (muStep p (muRun p false pre) .abort) := by
    rw [muRun, List.foldl_append]
    rfl
  have habort := muStep_abort_unsettled p (muRun p false pre) hpre
  have hpres := muFold_settled_preserved p post
    ({ muRun p false pre with canceled := true, settled := some .rejectedAbort }) rfl
  refine ⟨?_, ?_, rfl, ?_⟩
  · rw [hsplit, habort, hpres.1]
  · rw [hsplit, habort, hpres.2]
  · rw [show (settleQ id (outcomeOfMU .rejectedAbort url) s).items =
      s.items.map (fun x => if x.id = id then applyOutcome .cancelled x else x) from rfl]
    rw [List.getElem?_map, hit]
    simp [hid, applyOutcome]

/-- A concrete state with one uploading item and one in-flight
transfer. -/
def oneUploadingState : QState :=
  { items := [{ id := 0, file := sampleFile, previewUrl := 0, progress := 10,
                status := .uploading, abortCtrl := some 0 }],
    inflight := [0], nextId := 1, nextCtrl := 1 }

/-- `abort_after_start_cancelled` at a concrete run: `mockUpload`
with `totalMs = 800` ticks once, is aborted, and sees one more tick. -/
theorem abort_after_start_cancelled_example :
    (muRun ⟨800, false⟩ false ([.tick] ++ .abort :: [.tick])).settled =
      some .rejectedAbort ∧
    (muRun ⟨800, false⟩ false ([.tick] ++ .abort :: [.tick])).progressCalls =
      (muRun ⟨800, false⟩ false [.tick]).progressCalls ∧
    outcomeOfMU .rejectedAbort 7 = .cancelled ∧
    ((settleQ 0 (outcomeOfMU .rejectedAbort 7) oneUploadingState).items[0]?).map
      (fun x => (x.status, x.error)) = some (.canceled, none) :=
  abort_after_start_cancelled ⟨800, false⟩ [.tick] [.tick] oneUploadingState 0 7 0
    { id := 0, file := sampleFile, previewUrl := 0, progress := 10,
      status := .uploading, abortCtrl := some 0 }
    (by decide) (by decide) (by decide)

/-- C2: the claim demands that a cancellation signalled before
settlement yields the `Cancelled` outcome at *every* timing, including
a signal already aborted when the transfer starts.  The code violates
that timing: `onAbort` runs with `const timer` still in its temporal
dead zone, `clearInterval(timer)` throws a `ReferenceError` out of the
Promise executor before the `AbortError` rejection is reached, and the
promise rejects with the `ReferenceError` — which the scheduler's
`.catch` handler records as `status == error` with the error message,
not `canceled`.  This theorem evaluates the model at that failing
input: the start-aborted run settles with the `ReferenceError`
rejection (never `AbortError`), records no progress, is inert for any
later events (neither timer nor listener exists), and the recorded
item status is `error` — the claim is right about the intent (the
dedicated `if (signal.aborted) return onAbort()` branch exists to
produce the `Cancelled` outcome, as `abort_after_start_cancelled`
proves it does for listener-delivered aborts) and the code is a
declaration-order slip. -/
theorem C2_cancellation_precedence_bug :
    (muRun ⟨800, false⟩ true []).settled = some .rejectedRefError ∧
    (muRun ⟨800, false⟩ true []).progressCalls = [] ∧
    muRun ⟨800, false⟩ true [.tick, .abort, .tick] = muRun ⟨800, false⟩ true [] ∧
    outcomeOfMU .rejectedRefError 7 = .failure tdzMessage ∧
    ((settleQ 0 (outcomeOfMU .rejectedRefError 7) oneUploadingState).items[0]?).map
      (fun x => (x.status, x.error)) = some (.error, some tdzMessage) := by
  decide

/-! ### Terminality of `success` (C3) and the `retry` guard (C4) -/

/-- A concrete state holding a single `success` item with id 0. -/
def successItemState : QState :=
  { items := [{ id := 0, file := sampleFile, previewUrl := 0, progress := 100,
                status := .success, serverUrl := some 3 }],
    inflight := [], nextId := 1, nextCtrl := 1 }

/-- Counterexample to C3 as stated: `cancelItem` has no `success`
guard, so `cancel(id)` on a `success` item moves it to `canceled` —
`success` is not terminal under the targeted cancel operation. -/
theorem C3_success_terminal_cex :
    (successItemState.items.map (·.status)) = [.success] ∧
    ((cancelItemQ 0 successItemState).items.map (·.status)) = [.canceled] := by
  decide

/-- C3 amended: a `success` item is preserved by every bulk operation
(`cancelAll` — which guards `success` explicitly — `startAll`, `pump`,
enqueue) and by every operation targeted at a *different* id
(`cancel`, `retry`, settlement, progress); but `cancelItem` aimed at
the `success` item itself sets it to `canceled`, and `retryItem` aimed
at it resets it to `queued` — the only guards are in the presentation
layer, which offers neither control for a `success` item. -/
theorem C3_success_terminal_amended (s : QState) (i : Nat) (it : Item)
    (files : List FileMeta) (id pid p : Nat) (o : Outcome)
    (hit : s.items[i]? = some it) (hsucc : it.status = .success) (hid : it.id ≠ id) :
    (((cancelAllQ s).items[i]?).map (·.status) = some .success) ∧
    (((startAllQ s).items[i]?).map (·.status) = some .success) ∧
    (((pumpQ s).items[i]?).map (·.status) = some .success) ∧
    (((pushFiles files s).1.items[i]?).map (·.status) = some .success) ∧
    (((progressQ pid p s).items[i]?).map (·.status) = some .success) ∧
    (((cancelItemQ id s).items[i]?).map (·.status) = some .success) ∧
    (((retryItemQ id s).items[i]?).map (·.status) = some .success) ∧
    (((settleQ id o s).items[i]?).map (·.status) = some .success) ∧
    (((cancelItemQ it.id s).items[i]?).map (·.status) = some .canceled) ∧
    (((retryItemQ it.id s).items[i]?).map (·.status) = some .queued) := by
  have hlt : i < s.items.length := (List.getElem?_eq_some.mp hit).1
  refine ⟨?_, ?_, ?_, ?_, ?_, ?_, ?_, ?_, ?_, ?_⟩
  · rw [show (cancelAllQ s).items = s.items.map
      (fun it => { it with status := if it.status = .success then it.status else .canceled })
      from rfl]
    rw [List.getElem?_map, hit]
    simp [hsucc]
  · rw [show (startAllQ s).items = s.items.map (fun it =>
      if it.status = .idle ∨ it.status = .error ∨ it.status = .canceled then
        { it with status := .queued, progress := 0, error := none }
      else it) from rfl]
    rw [List.getElem?_map, hit]
    simp [hsucc]
  · by_cases hg : CONCURRENCY ≤ s.inflight.length
    · rw [pumpQ_guard s hg, hit]
      simp [hsucc]
    · rw [pumpQ_eq s hg]
      simp only
      rw [pumpLoop_getElem?, hit]
      simp [hsucc]
  · rw [show (pushFiles files s).1.items = s.items ++
      (buildAdds ((files.take (MAX_FILES - s.items.length)).filter
        (fun f => !(s.items.any (fun x => isDuplicate f x.file)))) s.nextId).1 from rfl]
    rw [List.getElem?_append, if_pos hlt, hit]
    simp [hsucc]
  · rw [show (progressQ pid p s).items = s.items.map
      (fun it => if it.id = pid then { it with progress := p } else it) from rfl]
    rw [List.getElem?_map, hit]
    by_cases hc : it.id = pid <;> simp [hc, hsucc]
  · rw [show (cancelItemQ id s).items = s.items.map
      (fun it => if it.id = id then { it with status := .canceled } else it) from rfl]
    rw [List.getElem?_map, hit]
    simp [hid, hsucc]
  · rw [show (retryItemQ id s).items = s.items.map (fun it =>
      if it.id = id then { it with status := .queued, progress := 0, error := none } else it)
      from rfl]
    rw [List.getElem?_map, hit]
    simp [hid, hsucc]
  · rw [show (settleQ id o s).items = s.items.map
      (fun it => if it.id = id then applyOutcome o it else it) from rfl]
    rw [List.getElem?_map, hit]
    simp [hid, hsucc]
  · rw [show (cancelItemQ it.id s).items = s.items.map
      (fun x => if x.id = it.id then { x with status := .canceled } else x) from rfl]
    rw [List.getElem?_map, hit]
    simp
  · rw [show (retryItemQ it.id s).items = s.items.map (fun x =>
      if x.id = it.id then { x with status := .queued, progress := 0, error := none } else x)
      from rfl]
    rw [List.getElem?_map, hit]
    simp

/-- Witness for the amended C3 at the concrete one-success-item state. -/
theorem C3_success_terminal_amended_witness :
    (((cancelAllQ successItemState).items[0]?).map (·.status) = some .success) ∧
    (((startAllQ successItemState).items[0]?).map (·.status) = some .success) ∧
    (((pumpQ successItemState).items[0]?).map (·.status) = some .success) ∧
    (((pushFiles [sampleFile] successItemState).1.items[0]?).map (·.status) = some .success) ∧
    (((progressQ 5 50 successItemState).items[0]?).map (·.status) = some .success) ∧
    (((cancelItemQ 9 successItemState).items[0]?).map (·.status) = some .success) ∧
    (((retryItemQ 9 successItemState).items[0]?).map (·.status) = some .success) ∧
    (((settleQ 9 (.failure "boom") successItemState).items[0]?).map (·.status) =
      some .success) ∧
    (((cancelItemQ 0 successItemState).items[0]?).map (·.status) = some .canceled) ∧
    (((retryItemQ 0 successItemState).items[0]?).map (·.status) = some .queued) :=
  C3_success_terminal_amended successItemState 0
    { id := 0, file := sampleFile, previewUrl := 0, progress := 100,
      status := .success, serverUrl := some 3 }
    [sampleFile] 9 5 50 (.failure "boom") (by decide) (by decide) (by decide)

/-- A concrete state holding a single `uploading` item with id 0. -/
def uploadingItemState : QState :=
  { items := [{ id := 0, file := sampleFile, previewUrl := 0, progress := 50,
                status := .uploading, abortCtrl := some 0 }],
    inflight := [0], nextId := 1, nextCtrl := 1 }

/-- Counterexample to C4 as stated: `retryItem` performs no status
guard and does not reject — calling it on an `uploading` item is not a
no-op: the item's status and progress change. -/
theorem C4_retry_guard_cex :
    (uploadingItemState.items.map (fun it => (it.status, it.progress))) =
      [(.uploading, 50)] ∧
    ((retryItemQ 0 uploadingItemState).items.map (fun it => (it.status, it.progress))) =
      [(.queued, 0)] := by
  decide

/-- C4 amended: `retryItem(id)` applies its reset unconditionally —
whatever the matching item's current status (`uploading`, `success`,
...), it becomes `queued` with `progress 0` and `error` cleared, all
other fields kept, and every other item is untouched; the only guard
against retrying an item in an invalid state is the presentation
layer, which renders the retry control only for `error` items. -/
theorem C4_retry_guard_amended (s : QState) (id i j : Nat) (it itj : Item)
    (hit : s.items[i]? = some it) (hid : it.id = id)
    (hj : s.items[j]? = some itj) (hjid : itj.id ≠ id) :
    (retryItemQ id s).items[i]? =
      some { it with status := .queued, progress := 0, error := none } ∧
    (retryItemQ id s).items[j]? = some itj := by
  constructor
  · rw [show (retryItemQ id s).items = s.items.map (fun x =>
      if x.id = id then { x with status := .queued, progress := 0, error := none } else x)
      from rfl]
    rw [List.getElem?_map, hit]
    simp [hid]
  · rw [show (retryItemQ id s).items = s.items.map (fun x =>
      if x.id = id then { x with status := .queued, progress := 0, error := none } else x)
      from rfl]
    rw [List.getElem?_map, hj]
    simp [hjid]

/-- Witness for the amended C4: retrying the uploading item of a
two-item state resets it and leaves the other item alone. -/
theorem C4_retry_guard_amended_witness :
    (retryItemQ 0 { items := [{ id := 0, file := sampleFile, previewUrl := 0,
                                progress := 50, status := .uploading, abortCtrl := some 0 },
                              mkItem 1 sampleFile],
                    inflight := [0], nextId := 2, nextCtrl := 1 : QState }).items[0]? =
      some { id := 0, file := sampleFile, previewUrl := 0, progress := 0,
             status := .queued, error := none, abortCtrl := some 0 } ∧
    (retryItemQ 0 { items := [{ id := 0, file := sampleFile, previewUrl := 0,
                                progress := 50, status := .uploading, abortCtrl := some 0 },
                              mkItem 1 sampleFile],
                    inflight := [0], nextId := 2, nextCtrl := 1 : QState }).items[1]? =
      some (mkItem 1 sampleFile) :=
  C4_retry_guard_amended _ 0 0 1
    { id := 0, file := sampleFile, previewUrl := 0, progress := 50,
      status := .uploading, abortCtrl := some 0 }
    (mkItem 1 sampleFile) (by decide) (by decide) (by decide) (by decide)

/-! ### Retry reset (C7), cancelling a queued item (C8), settlement
recording (C9) -/

/-- C7: after `retry(id)` on an item with `status == error`, that item
has `status == queued`, `progress == 0` and `error` cleared, every
other item is unchanged, and the item is eligible for re-admission: the
next `pump` with free capacity (fewer queued items before it than free
slots) starts it. -/
theorem C7_retry_resets (s : QState) (id i j : Nat) (it itj : Item)
    (hit : s.items[i]? = some it) (hid : it.id = id) (herr : it.status = .error)
    (hj : s.items[j]? = some itj) (hjid : itj.id ≠ id)
    (hcap : s.inflight.length < CONCURRENCY)
    (hbefore : countQueued ((retryItemQ id s).items.take i) <
      CONCURRENCY - s.inflight.length) :
    (retryItemQ id s).items[i]? =
      some { it with status := .queued, progress := 0, error := none } ∧
    (retryItemQ id s).items[j]? = some itj ∧
    ((pumpQ (retryItemQ id s)).items[i]?).map (·.status) = some .uploading := by
  have h1 : (retryItemQ id s).items[i]? =
      some { it with status := .queued, progress := 0, error := none } := by
    rw [show (retryItemQ id s).items = s.items.map (fun x =>
      if x.id = id then { x with status := .queued, progress := 0, error := none } else x)
      from rfl]
    rw [List.getElem?_map, hit]
    simp [hid]
  refine ⟨h1, ?_, ?_⟩
  · rw [show (retryItemQ id s).items = s.items.map (fun x =>
      if x.id = id then { x with status := .queued, progress := 0, error := none } else x)
      from rfl]
    rw [List.getElem?_map, hj]
    simp [hjid]
  · have hinf : (retryItemQ id s).inflight = s.inflight := rfl
    have hg : ¬ CONCURRENCY ≤ (retryItemQ id s).inflight.length := by
      rw [hinf]; omega
    rw [pumpQ_eq _ hg]
    simp only
    rw [pumpLoop_getElem?, h1]
    rw [hinf]
    simp [hbefore]

/-- Witness for C7: a two-item state whose first item has failed; the
retry resets it and the next pump admits it. -/
theorem C7_retry_resets_witness :
    (retryItemQ 0 { items := [{ id := 0, file := sampleFile, previewUrl := 0,
                                progress := 40, status := .error,
                                error := some "네트워크 오류가 발생했습니다." },
                              mkItem 1 sampleFile],
                    inflight := [], nextId := 2, nextCtrl := 1 : QState }).items[0]? =
      some { id := 0, file := sampleFile, previewUrl := 0, progress := 0,
             status := .queued, error := none } ∧
    (retryItemQ 0 { items := [{ id := 0, file := sampleFile, previewUrl := 0,
                                progress := 40, status := .error,
                                error := some "네트워크 오류가 발생했습니다." },
                              mkItem 1 sampleFile],
                    inflight := [], nextId := 2, nextCtrl := 1 : QState }).items[1]? =
      some (mkItem 1 sampleFile) ∧
    ((pumpQ (retryItemQ 0 { items := [{ id := 0, file := sampleFile, previewUrl := 0,
                                        progress := 40, status := .error,
                                        error := some "네트워크 오류가 발생했습니다." },
                                      mkItem 1 sampleFile],
                            inflight := [], nextId := 2,
                            nextCtrl := 1 : QState })).items[0]?).map (·.status) =
      some .uploading :=
  C7_retry_resets _ 0 0 1
    { id := 0, file := sampleFile, previewUrl := 0, progress := 40,
      status := .error, error := some "네트워크 오류가 발생했습니다." }
    (mkItem 1 sampleFile) (by decide) (by decide) (by decide) (by decide) (by decide)
    (by decide) (by decide)

/-- C8: cancelling an item that is still `queued` (never started: no
abort controller, no in-flight transfer with its id) moves it directly
to `canceled` without creating a cancellation handle or invoking the
Transfer Simulator (`inflight` unchanged), and the next `pump` neither
starts it (its status stays `canceled`) nor ever creates an in-flight
transfer with its id — so no progress callback can ever be recorded
for it. -/
theorem C8_cancel_queued (s : QState) (id i : Nat) (it : Item)
    (hit : s.items[i]? = some it) (hid : it.id = id) (hq : it.status = .queued)
    (hctrl : it.abortCtrl = none) (hnf : id ∉ s.inflight)
    (huniq : ∀ x ∈ s.items, x.id = id → x = it) :
    (cancelItemQ id s).items[i]? = some { it with status := .canceled } ∧
    ((cancelItemQ id s).items[i]?).map (·.abortCtrl) = some none ∧
    (cancelItemQ id s).inflight = s.inflight ∧
    ((pumpQ (cancelItemQ id s)).items[i]?).map (·.status) = some .canceled ∧
    id ∉ (pumpQ (cancelItemQ id s)).inflight := by
  have h1 : (cancelItemQ id s).items[i]? = some { it with status := .canceled } := by
    rw [show (cancelItemQ id s).items = s.items.map
      (fun x => if x.id = id then { x with status := .canceled } else x) from rfl]
    rw [List.getElem?_map, hit]
    simp [hid]
  have hnoq : ∀ y ∈ (cancelItemQ id s).items, y.id = id → ¬ y.status = .queued := by
    intro y hy hyid
    rw [show (cancelItemQ id s).items = s.items.map
      (fun x => if x.id = id then { x with status := .canceled } else x) from rfl] at hy
    obtain ⟨z, hz, rfl⟩ := List.mem_map.mp hy
    by_cases hc : z.id = id
    · simp [hc]
    · rw [if_neg hc] at hyid ⊢
      exact absurd hyid hc
  refine ⟨h1, ?_, rfl, ?_, ?_⟩
  · rw [h1]
    simp [hctrl]
  · by_cases hg : CONCURRENCY ≤ (cancelItemQ id s).inflight.length
    · rw [pumpQ_guard _ hg, h1]
      simp
    · rw [pumpQ_eq _ hg]
      simp only
      rw [pumpLoop_getElem?, h1]
      simp
  · by_cases hg : CONCURRENCY ≤ (cancelItemQ id s).inflight.length
    · rw [pumpQ_guard _ hg]
      exact hnf
    · rw [pumpQ_eq _ hg]
      simp only
      intro hmem
      rcases List.mem_append.mp hmem with hm | hm
      · exact hnf hm
      · obtain ⟨y, hy, hyid, hyq⟩ :=
          pumpLoop_ids_queued (cancelItemQ id s).items _ (cancelItemQ id s).nextCtrl id hm
        exact hnoq y hy hyid hyq

/-- Witness for C8: cancelling the queued item of a fresh one-item
queue. -/
theorem C8_cancel_queued_witness :
    (cancelItemQ 0 (pushFiles [sampleFile] initState).1).items[0]? =
      some { id := 0, file := sampleFile, previewUrl := 0, progress := 0,
             status := .canceled } ∧
    (((cancelItemQ 0 (pushFiles [sampleFile] initState).1).items[0]?).map (·.abortCtrl)) =
      some none ∧
    (cancelItemQ 0 (pushFiles [sampleFile] initState).1).inflight =
      (pushFiles [sampleFile] initState).1.inflight ∧
    (((pumpQ (cancelItemQ 0 (pushFiles [sampleFile] initState).1)).items[0]?).map
      (·.status)) = some .canceled ∧
    0 ∉ (pumpQ (cancelItemQ 0 (pushFiles [sampleFile] initState).1)).inflight :=
  C8_cancel_queued (pushFiles [sampleFile] initState).1 0 0 (mkItem 0 sampleFile)
    (by decide) (by decide) (by decide) (by decide) (by decide) (by decide)

/-- C9: a settled transfer is recorded only on its item and nothing is
thrown to the scheduler's caller (`settleQ` is a total function): on a
generic failure the item gets `status == error` with the failure
message in `error`; on cancellation it gets `status == canceled` with
no error message; every other item is untouched in both cases. -/
theorem C9_settle_recording (s : QState) (id : Nat) (msg : String)
    (i j : Nat) (it itj : Item)
    (hit : s.items[i]? = some it) (hid : it.id = id)
    (hj : s.items[j]? = some itj) (hjid : itj.id ≠ id) :
    ((settleQ id (.failure msg) s).items[i]?).map (fun x => (x.status, x.error)) =
      some (.error, some msg) ∧
    ((settleQ id .cancelled s).items[i]?).map (fun x => (x.status, x.error)) =
      some (.canceled, none) ∧
    (settleQ id (.failure msg) s).items[j]? = some itj ∧
    (settleQ id .cancelled s).items[j]? = some itj := by
  refine ⟨?_, ?_, ?_, ?_⟩
  · rw [show (settleQ id (.failure msg) s).items = s.items.map
      (fun x => if x.id = id then applyOutcome (.failure msg) x else x) from rfl]
    rw [List.getElem?_map, hit]
    simp [hid, applyOutcome]
  · rw [show (settleQ id .cancelled s).items = s.items.map
      (fun x => if x.id = id then applyOutcome .cancelled x else x) from rfl]
    rw [List.getElem?_map, hit]
    simp [hid, applyOutcome]
  · rw [show (settleQ id (.failure msg) s).items = s.items.map
      (fun x => if x.id = id then applyOutcome (.failure msg) x else x) from rfl]
    rw [List.getElem?_map, hj]
    simp [hjid]
  · rw [show (settleQ id .cancelled s).items = s.items.map
      (fun x => if x.id = id then applyOutcome .cancelled x else x) from rfl]
    rw [List.getElem?_map, hj]
    simp [hjid]

/-- Witness for C9 at a concrete two-item state with one in-flight
transfer. -/
theorem C9_settle_recording_witness :
    (((settleQ 0 (.failure "네트워크 오류가 발생했습니다.")
        { items := [{ id := 0, file := sampleFile, previewUrl := 0, progress := 50,
                      status := .uploading, abortCtrl := some 0 },
                    mkItem 1 sampleFile],
          inflight := [0], nextId := 2, nextCtrl := 1 : QState }).items[0]?).map
      (fun x => (x.status, x.error))) = some (.error, some "네트워크 오류가 발생했습니다.") ∧
    (((settleQ 0 Outcome.cancelled
        { items := [{ id := 0, file := sampleFile, previewUrl := 0, progress := 50,
                      status := .uploading, abortCtrl := some 0 },
                    mkItem 1 sampleFile],
          inflight := [0], nextId := 2, nextCtrl := 1 : QState }).items[0]?).map
      (fun x => (x.status, x.error))) = some (.canceled, none) ∧
    (settleQ 0 (.failure "네트워크 오류가 발생했습니다.")
        { items := [{ id := 0, file := sampleFile, previewUrl := 0, progress := 50,
                      status := .uploading, abortCtrl := some 0 },
                    mkItem 1 sampleFile],
          inflight := [0], nextId := 2, nextCtrl := 1 : QState }).items[1]? =
      some (mkItem 1 sampleFile) ∧
    (settleQ 0 Outcome.cancelled
        { items := [{ id := 0, file := sampleFile, previewUrl := 0, progress := 50,
                      status := .uploading, abortCtrl := some 0 },
                    mkItem 1 sampleFile],
          inflight := [0], nextId := 2, nextCtrl := 1 : QState }).items[1]? =
      some (mkItem 1 sampleFile) :=
  C9_settle_recording _ 0 "네트워크 오류가 발생했습니다." 0 1
    { id := 0, file := sampleFile, previewUrl := 0, progress := 50,
      status := .uploading, abortCtrl := some 0 }
    (mkItem 1 sampleFile) (by decide) (by decide) (by decide) (by decide)

/-! ### The enqueue cap and duplicate filter (C10) -/

theorem buildAdds_files (fs : List FileMeta) (n : Nat) :
    ∀ it ∈ (buildAdds fs n).1, it.file ∈ fs := by
  induction fs generalizing n with
  | nil => simp [buildAdds]
  | cons f rest ih =>
    cases hv : validateFile f with
    | some err =>
      simp only [buildAdds, hv]
      intro it hit
      exact List.mem_cons_of_mem f (ih n it hit)
    | none =>
      simp only [buildAdds, hv]
      intro it hit
      rcases List.mem_cons.mp hit with h1 | h1
      · subst h1
        exact List.mem_cons_self f rest
      · exact List.mem_cons_of_mem f (ih (n + 1) it h1)

theorem isDuplicate_transfer (f g x : FileMeta)
    (h1 : isDuplicate f x = true) (h2 : isDuplicate f g = true) :
    isDuplicate g x = true := by
  simp only [isDuplicate, Bool.and_eq_true, beq_iff_eq] at h1 h2 ⊢
  exact ⟨⟨h2.1.1.symm.trans h1.1.1, h2.1.2.symm.trans h1.1.2⟩, h2.2.symm.trans h1.2⟩

/-- C10: `pushFiles` silently enforces a cap and a duplicate filter:
starting from a collection of at most `MAX_FILES` (10) items, at most
`MAX_FILES` items exist afterwards; files beyond the remaining capacity
are dropped with no item created and no error message (the result —
items and error list alike — equals the result of pushing only the
first `MAX_FILES - length` files); and no item is created for a file
that duplicates an existing item's file (same name, size and
lastModified). -/
theorem C10_push_cap_and_dup (files : List FileMeta) (s : QState) (f : FileMeta)
    (x : Item) (hlen : s.items.length ≤ MAX_FILES)
    (hx : x ∈ s.items) (hdup : isDuplicate f x.file = true) :
    (pushFiles files s).1.items.length ≤ MAX_FILES ∧
    pushFiles (files.take (MAX_FILES - s.items.length)) s = pushFiles files s ∧
    (∃ t, (pushFiles files s).1.items = s.items ++ t ∧
      ∀ it ∈ t, isDuplicate f it.file = false) := by
  set dupFiltered := (files.take (MAX_FILES - s.items.length)).filter
    (fun g => !(s.items.any (fun y => isDuplicate g y.file))) with hdf
  refine ⟨?_, ?_, ?_⟩
  · rw [show (pushFiles files s).1.items =
      s.items ++ (buildAdds dupFiltered s.nextId).1 from rfl]
    rw [List.length_append]
    have hb := buildAdds_length dupFiltered s.nextId
    have hf : dupFiltered.length ≤ (files.take (MAX_FILES - s.items.length)).length :=
      (List.filter_sublist _).length_le
    have ht : (files.take (MAX_FILES - s.items.length)).length ≤
        MAX_FILES - s.items.length := by
      rw [List.length_take]
      exact Nat.min_le_left _ _
    omega
  · simp only [pushFiles, List.take_take, Nat.min_self]
  · refine ⟨(buildAdds dupFiltered s.nextId).1, rfl, ?_⟩
    intro it hit
    have hfile : it.file ∈ dupFiltered := buildAdds_files dupFiltered s.nextId it hit
    rw [hdf] at hfile
    have hpass : (!(s.items.any (fun y => isDuplicate it.file y.file))) = true := by
      simpa using (List.mem_filter.mp hfile).2
    have hnone : ∀ y ∈ s.items, ¬ isDuplicate it.file y.file = true := by
      rw [Bool.not_eq_true'] at hpass
      exact List.any_eq_false.mp hpass
    cases hb : isDuplicate f it.file with
    | false => rfl
    | true =>
      exact absurd (isDuplicate_transfer f it.file x.file hdup hb) (hnone x hx)

/-- Witness for C10: pushing twelve copies of the same file into a
queue already holding one item with that file adds nothing (cap 10 and
duplicate filter), and equals pushing only the first nine. -/
theorem C10_push_cap_and_dup_witness :
    (pushFiles (List.replicate 12 sampleFile)
      (pushFiles [sampleFile] initState).1).1.items.length ≤ MAX_FILES ∧
    pushFiles ((List.replicate 12 sampleFile).take
        (MAX_FILES - (pushFiles [sampleFile] initState).1.items.length))
      (pushFiles [sampleFile] initState).1 =
      pushFiles (List.replicate 12 sampleFile) (pushFiles [sampleFile] initState).1 ∧
    (∃ t, (pushFiles (List.replicate 12 sampleFile)
        (pushFiles [sampleFile] initState).1).1.items =
        (pushFiles [sampleFile] initState).1.items ++ t ∧
      ∀ it ∈ t, isDuplicate sampleFile it.file = false) :=
  C10_push_cap_and_dup (List.replicate 12 sampleFile) (pushFiles [sampleFile] initState).1
    sampleFile (mkItem 0 sampleFile) (by decide) (by decide) (by decide)

end Uploader
